import Mathlib

/-!
Verification of the geometry module of the `manim` fork (single source file
`manim/mobject/geometry.py`).  The Python classes are shallowly embedded:
pure numeric computations become Lean functions over `ℝ`, `ℚ`, `ℤ`;
exception-raising constructors return `Option`/`Except`; the mutable
submobject/tip bookkeeping of `TipableVMobject` becomes an explicit state
record.  Methods of the external vector-path collaborator (`VMobject`,
`Mobject`, `utils.*`) that the module calls but does not define are modelled
from the specification and are marked as such in their doc comments.
-/

namespace ManimGeo

/-- A 3-d point/vector with real coordinates, as used by the numpy arrays of
the source. -/
abbrev Pt := ℝ × ℝ × ℝ

/-- A 3-d vector with rational coordinates, used for the discrete tiling and
graph bookkeeping where exact evaluation is wanted. -/
abbrev Vec := ℚ × ℚ × ℚ

/-- Euclidean norm of a 3-d real vector (`np.linalg.norm` / `get_norm`). -/
noncomputable def norm3 (p : Pt) : ℝ :=
  Real.sqrt (p.1 ^ 2 + p.2.1 ^ 2 + p.2.2 ^ 2)

/-! ## Line.account_for_buff (geometry.py lines 440-453)

`account_for_buff` is parametrised here by the buffer `buff` and the
(arc) length `length` that the source computes from the points; the returned
value is `none` when the source leaves the path untrimmed and
`some (a, b)` when the source calls `pointwise_become_partial(self, a, b)`. -/

/-- Embedding of `Line.account_for_buff`:
`if self.buff == 0: return`; `if length < 2 * self.buff: return`;
otherwise trim to proportions `(buff/length, 1 - buff/length)`. -/
def accountForBuff (buff length : ℚ) : Option (ℚ × ℚ) :=
  if buff = 0 then none
  else if length < 2 * buff then none
  else some (buff / length, 1 - buff / length)

/-! ## TipableVMobject tip bookkeeping (geometry.py lines 58-166)

The geometric content of a tip is irrelevant to the child/attribute
invariants of claims C4 and C10, so tips are identified by natural-number
ids and a `TipableVMobject` is reduced to its list of submobject children
plus the two optional tip attributes. -/

/-- The submobject/tip-attribute state of a `TipableVMobject`:
`children` is `self.submobjects` (tips only; order preserved), `tip` and
`startTip` are the optional `self.tip` / `self.start_tip` attributes
(`none` = attribute not set). -/
structure TipState where
  children : List ℕ
  tip : Option ℕ
  startTip : Option ℕ
deriving DecidableEq, Repr

/-- Modelled from the spec: `Mobject.add` of the drawing collaborator
(parent/child add); it removes existing occurrences of the added object and
appends it (`list_update` semantics). -/
def addChild (s : TipState) (t : ℕ) : TipState :=
  { s with children := s.children.filter (fun c => c ≠ t) ++ [t] }

/-- Modelled from the spec: `Mobject.remove` of the drawing collaborator
(parent/child remove); removes the first occurrence from the children. -/
def removeChild (s : TipState) (t : ℕ) : TipState :=
  { s with children := s.children.erase t }

/-- Embedding of `TipableVMobject.asign_tip_attr`: overwrite the
`start_tip`/`tip` attribute with the new tip. -/
def asignTipAttr (s : TipState) (t : ℕ) (atStart : Bool) : TipState :=
  if atStart then { s with startTip := some t } else { s with tip := some t }

/-- Embedding of `TipableVMobject.add_tip` restricted to its state effect:
create the tip (fresh id `t`), reset endpoints (geometry only), assign the
tip attribute, then `self.add(tip)`. -/
def addTip (s : TipState) (t : ℕ) (atStart : Bool) : TipState :=
  addChild (asignTipAttr s t atStart) t

/-- Embedding of `TipableVMobject.has_tip`:
`hasattr(self, "tip") and self.tip in self`. -/
def hasTip (s : TipState) : Bool :=
  match s.tip with
  | some t => t ∈ s.children
  | none => false

/-- Embedding of `TipableVMobject.has_start_tip`:
`hasattr(self, "start_tip") and self.start_tip in self`. -/
def hasStartTip (s : TipState) : Bool :=
  match s.startTip with
  | some t => t ∈ s.children
  | none => false

/-- Embedding of `TipableVMobject.pop_tips`: remove the end tip from the
children when `has_tip()`, then the start tip when `has_start_tip()`;
returns the new state together with the list of popped tips (the `VGroup`
result).  The `put_start_and_end_on` geometry restore is not part of the
child/attribute state. -/
def popTips (s : TipState) : TipState × List ℕ :=
  let step1 :=
    if hasTip s then
      match s.tip with
      | some t => (removeChild s t, [t])
      | none => (s, [])
    else (s, [])
  let s1 := step1.1
  if hasStartTip s1 then
    match s1.startTip with
    | some t => (removeChild s1 t, step1.2 ++ [t])
    | none => step1
  else step1

/-- Embedding of `TipableVMobject.get_tips`: collect the `tip` attribute
then the `start_tip` attribute, checking only attribute presence. -/
def getTips (s : TipState) : List ℕ :=
  s.tip.toList ++ s.startTip.toList

/-- Embedding of `TipableVMobject.get_tip`: first element of `get_tips()`,
`none` meaning the `Exception("tip not found")` raise. -/
def getTipOpt (s : TipState) : Option ℕ :=
  (getTips s).head?

/-! ## Arc.generate_points / set_pre_positioned_points (geometry.py 208-236)

`set_pre_positioned_points` samples `num_components` anchors uniformly in
angle on the unit circle with `np.linspace`, derives handles from the
90-degree-rotated tangents scaled by `d_theta / 3`, and
`set_anchors_and_handles(anchors[:-1], handles1, handles2, anchors[1:])`
stores one `(anchor, handle, handle, anchor)` quadruple per cubic segment;
`generate_points` then scales every point by `radius` about the origin and
shifts by `arc_center`. -/

/-- The unit-circle point `cos(a)·RIGHT + sin(a)·UP` used for the arc
anchors. -/
noncomputable def unitAnchor (a : ℝ) : Pt := (Real.cos a, Real.sin a, 0)

/-- The tangent vector the source derives from an anchor by the 90-degree
rotation `(x, y) -> (-y, x)` (with a zero third component, as the source's
`tangent_vectors` array only assigns columns 0 and 1). -/
def arcTangent (p : Pt) : Pt := (-p.2.1, p.1, 0)

/-- Sample `i` of `np.linspace(startAngle, startAngle + angle, n)`. -/
noncomputable def arcAnchorAngle (startAngle angle : ℝ) (n i : ℕ) : ℝ :=
  startAngle + (i : ℝ) * angle / ((n : ℝ) - 1)

/-- The `n - 1` pre-positioned cubic segments of
`Arc.set_pre_positioned_points`, each a quadruple
`(anchor_i, anchor_i + (dθ/3)·tangent_i, anchor_(i+1) - (dθ/3)·tangent_(i+1),
anchor_(i+1))`. -/
noncomputable def arcQuads (startAngle angle : ℝ) (n : ℕ) : List (Pt × Pt × Pt × Pt) :=
  (List.range (n - 1)).map fun i =>
    let dTheta := angle / ((n : ℝ) - 1)
    let a1 := unitAnchor (arcAnchorAngle startAngle angle n i)
    let a2 := unitAnchor (arcAnchorAngle startAngle angle n (i + 1))
    (a1, a1 + (dTheta / 3) • arcTangent a1, a2 - (dTheta / 3) • arcTangent a2, a2)

/-- The point transform of `Arc.generate_points`: `scale(radius,
about_point=ORIGIN)` followed by `shift(arc_center)` (affine ops of the
external collaborator, modelled from the spec). -/
noncomputable def scaleShiftPt (r : ℝ) (c : Pt) (p : Pt) : Pt := c + r • p

/-- The positioned cubic segments of `Arc.generate_points`. -/
noncomputable def arcQuadsPositioned (startAngle angle : ℝ) (n : ℕ) (r : ℝ) (c : Pt) :
    List (Pt × Pt × Pt × Pt) :=
  (arcQuads startAngle angle n).map (fun q =>
    (scaleShiftPt r c q.1, scaleShiftPt r c q.2.1,
     scaleShiftPt r c q.2.2.1, scaleShiftPt r c q.2.2.2))

/-! ## The external path collaborator

The following operations belong to `VMobject`/`Mobject`/`utils.space_ops`
of the drawing library, which is not part of this module; they are modelled
from the specification.  A path is its flat list of control points (four
per cubic segment). -/

/-- Modelled from the spec: `angle_of_vector` of the collaborator —
`atan2` of the `(x, y)` components. -/
noncomputable def angleOfVector (p : Pt) : ℝ := Complex.arg ⟨p.1, p.2.1⟩

/-- Modelled from the spec: rotation by angle `d` about the OUT axis, as
used by `Mobject.rotate` (applied to a vector based at the pivot). -/
noncomputable def rotZ (d : ℝ) (p : Pt) : Pt :=
  (p.1 * Real.cos d - p.2.1 * Real.sin d, p.1 * Real.sin d + p.2.1 * Real.cos d, p.2.2)

/-- Modelled from the spec: `VMobject.put_start_and_end_on(s, e)` — scale
about the current start by `|e - s| / |curr_end - curr_start|`, rotate
about it by the angle difference, then shift the start onto `s`; raises
("Cannot position endpoints of closed loop", here `none`) when the current
start and end coincide. -/
noncomputable def putStartEndOn (path : List Pt) (s e : Pt) : Option (List Pt) :=
  match path.head?, path.getLast? with
  | some cs, some ce =>
    if ce - cs = ((0 : ℝ), (0 : ℝ), (0 : ℝ)) then none
    else
      let factor := norm3 (e - s) / norm3 (ce - cs)
      let delta := angleOfVector (e - s) - angleOfVector (ce - cs)
      some (path.map (fun p => cs + rotZ delta (factor • (p - cs)) + (s - cs)))
  | _, _ => none

/-- The constant `LEFT` of the source. -/
def LEFTP : Pt := (-1, 0, 0)

/-- The constant `RIGHT` of the source. -/
def RIGHTP : Pt := (1, 0, 0)

/-- Modelled from the spec: `set_points_as_corners` — one straight cubic
per pair of consecutive corners, with handles at the third points. -/
noncomputable def cornersPath (corners : List Pt) : List Pt :=
  ((corners.zip corners.tail).map (fun pr =>
    [pr.1, pr.1 + (1 / 3 : ℝ) • (pr.2 - pr.1),
     pr.1 + (2 / 3 : ℝ) • (pr.2 - pr.1), pr.2])).flatten

/-- Flatten anchor/handle quadruples into the collaborator's point list. -/
def quadsToPoints (qs : List (Pt × Pt × Pt × Pt)) : List Pt :=
  (qs.map (fun q => [q.1, q.2.1, q.2.2.1, q.2.2.2])).flatten

/-! ## ArcBetweenPoints (geometry.py lines 267-301) -/

/-- The point list built by `ArcBetweenPoints.__init__` once the angle is
known: generate the arc points (start angle 0, 9 components, the stored
radius, centered at the origin), replace them by the straight two-point
path `[LEFT, RIGHT]` when the angle is 0, then
`put_start_and_end_on(start, end)`. -/
noncomputable def arcBetweenPointsPath (s e : Pt) (θ radius : ℝ) : Option (List Pt) :=
  putStartEndOn
    (if θ = 0 then cornersPath [LEFTP, RIGHTP]
     else quadsToPoints (arcQuadsPositioned 0 θ 9 radius ((0 : ℝ), (0 : ℝ), (0 : ℝ))))
    s e

/-- The explicit-radius branch of `ArcBetweenPoints.__init__`: flip the
sign into `sign = ±2` and the radius into its magnitude, compute
`halfdist = |start - end| / 2`, raise `ValueError` (`none`) when the
magnitude is below `halfdist`, else derive
`angle = acos((radius - arc_height) / radius) * sign` with
`arc_height = radius - sqrt(radius² - halfdist²)`. -/
noncomputable def deriveAngleABP (s e : Pt) (r : ℝ) : Option ℝ :=
  let sign : ℝ := if r < 0 then -2 else 2
  let radiusAbs : ℝ := if r < 0 then -r else r
  let halfdist : ℝ := norm3 (s - e) / 2
  if radiusAbs < halfdist then none
  else
    let arcHeight : ℝ := radiusAbs - Real.sqrt (radiusAbs ^ 2 - halfdist ^ 2)
    some (Real.arccos ((radiusAbs - arcHeight) / radiusAbs) * sign)

/-- The whole explicit-radius construction of `ArcBetweenPoints`: the
`ValueError` of the radius check is raised before any path points are
produced (`Except.error`), otherwise the path is built from the derived
angle. -/
noncomputable def arcBetweenPointsWithRadius (s e : Pt) (r : ℝ) :
    Except Unit (Option (List Pt)) :=
  match deriveAngleABP s e r with
  | none => Except.error ()
  | some θ => Except.ok (arcBetweenPointsPath s e θ r)

/-! ## Arc.get_arc_center (geometry.py lines 238-257) -/

/-- Modelled from the spec: `rotate_vector(v, TAU/4)` — the 90-degree
rotation `(x, y, z) -> (-y, x, z)`. -/
def rot90 (p : Pt) : Pt := (-p.2.1, p.1, p.2.2)

/-- Modelled from the spec: `line_intersection` of the collaborator —
intersection of the two lines through `(a, b)` and `(c, d)` in the plane,
raising (`none`) when the determinant of the direction differences is
zero (parallel or degenerate lines). -/
noncomputable def lineIntersection2 (a b c d : Pt) : Option Pt :=
  let xdiff1 := a.1 - b.1
  let xdiff2 := c.1 - d.1
  let ydiff1 := a.2.1 - b.2.1
  let ydiff2 := c.2.1 - d.2.1
  let dv := xdiff1 * ydiff2 - xdiff2 * ydiff1
  if dv = 0 then none
  else
    let d1 := a.1 * b.2.1 - a.2.1 * b.1
    let d2 := c.1 * d.2.1 - c.2.1 * d.1
    some ((d1 * xdiff2 - d2 * xdiff1) / dv, (d1 * ydiff2 - d2 * ydiff1) / dv, 0)

/-- Embedding of `Arc.get_arc_center` on the first two anchor/handle pairs
`a1, h1, h2, a2` of the points: intersect the normals of the two tangents;
on failure return the origin, set the `_failed_to_get_center` flag, and
warn when warnings are enabled.  Result: `(center, failed flag, warned)`. -/
noncomputable def getArcCenter (a1 h1 h2 a2 : Pt) (warning : Bool) : Pt × Bool × Bool :=
  let t1 := h1 - a1
  let t2 := h2 - a2
  let n1 := rot90 t1
  let n2 := rot90 t2
  match lineIntersection2 a1 (a1 + n1) a2 (a2 + n2) with
  | some c => (c, false, false)
  | none => (((0 : ℝ), (0 : ℝ), (0 : ℝ)), true, warning)

/-- The value stored in `self.radius` by `ArcBetweenPoints.__init__` when
no explicit radius is passed: `math.inf` when the center recovery failed,
else the distance from `start` to the recovered center. -/
inductive RadiusVal where
  | finite (r : ℝ)
  | infinite

/-- The radius inference of the no-explicit-radius branch of
`ArcBetweenPoints.__init__` (which calls `get_arc_center(warning=False)`
on the first two anchor/handle pairs of the constructed points). -/
noncomputable def abpDerivedRadius (s a1 h1 h2 a2 : Pt) : RadiusVal :=
  let res := getArcCenter a1 h1 h2 a2 false
  if res.2.1 then RadiusVal.infinite else RadiusVal.finite (norm3 (s - res.1))

/-! ## Path endpoints and TipableVMobject.reset_endpoints_based_on_tip
(geometry.py lines 105-116, 177-191) -/

/-- The first control point of a path (`VMobject.get_start`). -/
def getStartPt (p : List Pt) : Pt := p.head?.getD ((0 : ℝ), (0 : ℝ), (0 : ℝ))

/-- The last control point of a path (`VMobject.get_end`). -/
def getEndPt (p : List Pt) : Pt := p.getLast?.getD ((0 : ℝ), (0 : ℝ), (0 : ℝ))

/-- Embedding of `TipableVMobject.get_length`: the distance from start to
end of the path. -/
noncomputable def getLengthPath (p : List Pt) : ℝ := norm3 (getStartPt p - getEndPt p)

/-- Embedding of `TipableVMobject.reset_endpoints_based_on_tip`: when the
path length is zero return the path unchanged (the source comments "Zero
length, put_start_and_end_on wouldn't work"); otherwise shrink the path so
that the relevant endpoint becomes the tip's base. -/
noncomputable def resetEndpointsBasedOnTip (p : List Pt) (tipBase : Pt) (atStart : Bool) :
    Option (List Pt) :=
  if getLengthPath p = 0 then some p
  else if atStart then putStartEndOn p tipBase (getEndPt p)
  else putStartEndOn p (getStartPt p) tipBase

/-! ## Polygon.round_corners (geometry.py lines 693-725)

The per-vertex loop builds, for each cyclically adjacent vertex triple
`(v1, v2, v3)`, an `ArcBetweenPoints` spanning the two cut points around
`v2`; the reassembly loop then appends each arc followed by a straight
connector `Line` whose curve count is scaled by
`line.get_length() / arc.get_arc_length()`.  On a zero-length arc that
ratio is an IEEE division by zero, and `int(...)` of the resulting
`inf`/`nan` raises `OverflowError`/`ValueError`; this failure is modelled
as `none`. -/

/-- Modelled from the spec: `normalize` of the collaborator — `v / |v|`
for positive norm, the zero vector otherwise. -/
noncomputable def normalizeV (p : Pt) : Pt :=
  if norm3 p = 0 then ((0 : ℝ), (0 : ℝ), (0 : ℝ)) else (1 / norm3 p) • p

/-- The dot product of two 3-d vectors. -/
def dotPt (p q : Pt) : ℝ := p.1 * q.1 + p.2.1 * q.2.1 + p.2.2 * q.2.2

/-- Modelled from the spec: `angle_between_vectors` of the collaborator —
the arccos of the dot product of the normalized vectors. -/
noncomputable def angleBetweenVectors (v w : Pt) : ℝ :=
  Real.arccos (dotPt (normalizeV v) (normalizeV w))

/-- The numpy `np.sign` on a real scalar. -/
noncomputable def signR (x : ℝ) : ℝ := if x < 0 then -1 else if x = 0 then 0 else 1

/-- The numpy cross product `np.cross` of two 3-d vectors. -/
def cross3 (v w : Pt) : Pt :=
  (v.2.1 * w.2.2 - v.2.2 * w.2.1, v.2.2 * w.1 - v.1 * w.2.2, v.1 * w.2.1 - v.2.1 * w.1)

/-- Modelled from the spec: `get_arc_length` of the collaborator — the
total (arc) length of the path, here the length of the control polyline
(the source samples the curve densely; on the degenerate and straight
paths of the theorems below the two agree exactly). -/
noncomputable def pathArcLength (p : List Pt) : ℝ :=
  ((p.zip p.tail).map (fun pr => norm3 (pr.2 - pr.1))).sum

/-- Modelled from the spec: `get_num_curves` — four points per cubic. -/
def numCurves (p : List Pt) : ℕ := p.length / 4

/-- The point at proportion `t` along the straight segment `s`-`e`. -/
noncomputable def linePointAt (s e : Pt) (t : ℝ) : Pt := s + t • (e - s)

/-- Modelled from the spec: `insert_n_curves(m)` on a one-cubic straight
connector — subdivide it evenly into `m + 1` cubics covering the same
segment (density matching for path interpolation). -/
noncomputable def subdividedLine (s e : Pt) (m : ℕ) : List Pt :=
  ((List.range (m + 1)).map (fun i =>
    [linePointAt s e ((i : ℝ) / ((m : ℝ) + 1)),
     linePointAt s e (((i : ℝ) + 1 / 3) / ((m : ℝ) + 1)),
     linePointAt s e (((i : ℝ) + 2 / 3) / ((m : ℝ) + 1)),
     linePointAt s e (((i : ℝ) + 1) / ((m : ℝ) + 1))])).flatten

/-- The loop body of `round_corners` for one vertex triple `(v1, v2, v3)`:
edge vectors, angle (sign-flipped by `np.sign(radius)`), cut-off length
`radius · tan(angle/2)`, turn direction from the cross product, and the
`ArcBetweenPoints` between the two cut points (built with the default
CONFIG radius 1 since no explicit radius is passed). -/
noncomputable def roundCornerArc (v1 v2 v3 : Pt) (radius : ℝ) : Option (List Pt) :=
  let vect1 := v2 - v1
  let vect2 := v3 - v2
  let unitVect1 := normalizeV vect1
  let unitVect2 := normalizeV vect2
  let ang := angleBetweenVectors vect1 vect2 * signR radius
  let cutOff := radius * Real.tan (ang / 2)
  let sgn := signR (cross3 vect1 vect2).2.2
  arcBetweenPointsPath (v2 - cutOff • unitVect1) (v2 + cutOff • unitVect2) (sgn * ang) 1

/-- `adjacent_pairs` of `utils.iterables`: cyclically adjacent pairs. -/
def adjacentPairsCyc {t : Type} (l : List t) : List (t × t) := l.zip (l.rotate 1)

/-- `adjacent_n_tuples(·, 3)` of `utils.iterables`: cyclically adjacent
triples. -/
def adjacentTriplesCyc {t : Type} (l : List t) : List (t × t × t) :=
  l.zip ((l.rotate 1).zip (l.rotate 2))

/-- Embedding of `Polygon.round_corners`: build one corner arc per vertex
triple, rotate the arc list by one (`arcs = [arcs[-1], *arcs[:-1]]`), then
append each arc and its density-matched straight connector; `none` models
a raised exception (either inside `ArcBetweenPoints` or the
`int(inf/nan)` crash of the connector ratio on a zero-length arc). -/
noncomputable def roundCorners (vertices : List Pt) (radius : ℝ) : Option (List Pt) := do
  let arcs ← (adjacentTriplesCyc vertices).mapM
    (fun t => roundCornerArc t.1 t.2.1 t.2.2 radius)
  let rotated := match arcs.getLast? with
    | some lastArc => lastArc :: arcs.dropLast
    | none => []
  (adjacentPairsCyc rotated).foldlM
    (fun acc pr =>
      let s := getEndPt pr.1
      let e := getStartPt pr.2
      let aLen := pathArcLength pr.1
      if aLen = 0 then none
      else
        some (acc ++ pr.1 ++
          subdividedLine s e
            (Int.toNat (Int.floor ((numCurves pr.1 : ℝ) * (norm3 (e - s) / aLen))))))
    []

/-- Corner `UL` of the source, the first vertex of the default
`Rectangle`. -/
def cornerUL : Pt := (-1, 1, 0)

/-- Corner `UR` of the source. -/
def cornerUR : Pt := (1, 1, 0)

/-- Corner `DR` of the source. -/
def cornerDR : Pt := (1, -1, 0)

/-- Corner `DL` of the source. -/
def cornerDL : Pt := (-1, -1, 0)

/-! ## Tiling.transform_tile (geometry.py lines 983-1007) -/

/-- Length of the Python range object `range(a, b, s)` (the CPython closed
formula), used by `transform_tile` to compute offset magnitudes. -/
def pyRangeLen (a b s : ℤ) : ℤ :=
  if 0 < s then (if a < b then (b - a - 1) / s + 1 else 0)
  else if s < 0 then (if b < a then (a - b - 1) / (-s) + 1 else 0)
  else 0

/-- The magnitude computed by `Tiling.transform_tile` for rule index `i` of
a rule list of length `k` at integer coordinate `p`:
`len(range(-i, p, -k)) * -1` when `p < 0`, else `len(range(i, p, k))`. -/
def magnitudeCode (k i p : ℤ) : ℤ :=
  if p < 0 then pyRangeLen (-i) p (-k) * (-1)
  else pyRangeLen i p k

/-- Embedding of `Tiling.transform_tile` for shift-only offset rules: each
rule is the list of shift vectors of its `(Mobject.shift, vector)` pairs;
the tile is reduced to its position, and `Mobject.shift` (external
collaborator) is vector addition.  The double loop over rule index `i` and
pair index `j` follows the source, including the mirrored rule index
`offset[-1 - i]` used when the coordinate is negative. -/
def transformTileShift (offset : List (List Vec)) (p : ℤ) (tile : Vec) : Vec :=
  (List.range offset.length).foldl
    (fun t1 i =>
      (List.range (offset.getD i []).length).foldl
        (fun t2 j =>
          if p < 0 then
            t2 + (magnitudeCode (offset.length : ℤ) (i : ℤ) p : ℚ) •
              ((offset.getD (offset.length - 1 - i) []).getD j 0)
          else
            t2 + (magnitudeCode (offset.length : ℤ) (i : ℤ) p : ℚ) •
              ((offset.getD i []).getD j 0))
        t1)
    tile

/-- The magnitude as worded by the claim: the count of multiples of `k`
offset by `i` lying strictly between `0` and `p`, sign-flipped when `p` is
negative. -/
def claimedMagnitude (k i p : ℤ) : ℤ :=
  if p < 0 then -(((Finset.Ioo p 0).filter (fun x => x % k = i % k)).card : ℤ)
  else (((Finset.Ioo 0 p).filter (fun x => x % k = i % k)).card : ℤ)

/-! ## EdgeVertexGraph (geometry.py lines 1129-1169)

Vertex keys are naturals (the source validates `isinstance(n, int)`), an
adjacency entry is either a bare vertex id or an `[id, config]` pair (the
source validates this shape); the per-vertex and per-edge style config
dictionaries only affect colours/styling of the created shapes, never how
many shapes exist or which positions they connect, so they carry no data
here.  A vertex shape is reduced to the position it is shifted to, an edge
shape to its pair of endpoint positions. -/

/-- An adjacency entry of the graph dictionary: `int` or `[int, dict]`. -/
inductive EdgeDef where
  | plain (v : ℕ)
  | withCfg (v : ℕ)
deriving DecidableEq, Repr

/-- The vertex id an adjacency entry points at (`edge_definition` or
`edge_definition[0]`). -/
def edgeTarget : EdgeDef → ℕ
  | .plain v => v
  | .withCfg v => v

/-- A value of the graph dictionary: position and adjacency list. -/
structure VertexData where
  pos : Vec
  adj : List EdgeDef
deriving DecidableEq, Repr

/-- Dictionary lookup `graph[vertex_number][0]`; `none` is the Python
`KeyError` for a dangling vertex id. -/
def lookupPos (g : List (ℕ × VertexData)) (v : ℕ) : Option Vec :=
  (g.find? (fun e => e.1 = v)).map (fun e => e.2.pos)

/-- The edges created for one vertex `v`: for each adjacency entry with
target `t`, an edge `(pos v, pos t)` is created exactly when `v < t`;
entries with `t ≤ v` are skipped. -/
def edgesForVertex (root : List (ℕ × VertexData)) (v : ℕ) (p : Vec) :
    List EdgeDef → Option (List (Vec × Vec))
  | [] => some []
  | d :: rest =>
    if v < edgeTarget d then
      match lookupPos root (edgeTarget d), edgesForVertex root v p rest with
      | some q, some es => some ((p, q) :: es)
      | _, _ => none
    else edgesForVertex root v p rest

/-- The main loop of `EdgeVertexGraph.__init__` over the remaining
dictionary items: one vertex shape per key, plus that key's edges. -/
def buildGraphAux (root : List (ℕ × VertexData)) :
    List (ℕ × VertexData) → Option (List Vec × List (Vec × Vec))
  | [] => some ([], [])
  | (v, d) :: rest =>
    match edgesForVertex root v d.pos d.adj, buildGraphAux root rest with
    | some es, some (vs2, es2) => some (d.pos :: vs2, es ++ es2)
    | _, _ => none

/-- Embedding of `EdgeVertexGraph.__init__`: the `vertices` and `edges`
groups built from the graph dictionary (`none` = a `KeyError` on a
dangling adjacency id). -/
def buildGraph (g : List (ℕ × VertexData)) : Option (List Vec × List (Vec × Vec)) :=
  buildGraphAux g g

/-- The three-vertex graph of the claim: vertices 0, 1, 2 with edges 0-1,
0-2, 1-2, each declared once from lower to higher id. -/
def exampleGraph : List (ℕ × VertexData) :=
  [(0, ⟨(0, 0, 0), [.plain 1, .plain 2]⟩),
   (1, ⟨(1, 0, 0), [.plain 2]⟩),
   (2, ⟨(0, 1, 0), []⟩)]

/-! # Theorems -/

/-- Helper: the `i`-th positioned cubic segment of an arc, by index
computation on the range-map. -/
lemma arcQuadsPositioned_getD (a θ r : ℝ) (c : Pt) (n i : ℕ) (hi : i < n - 1) :
    (arcQuadsPositioned a θ n r c).getD i default =
      (scaleShiftPt r c (unitAnchor (arcAnchorAngle a θ n i)),
       scaleShiftPt r c (unitAnchor (arcAnchorAngle a θ n i)
         + (θ / ((n : ℝ) - 1) / 3) • arcTangent (unitAnchor (arcAnchorAngle a θ n i))),
       scaleShiftPt r c (unitAnchor (arcAnchorAngle a θ n (i + 1))
         - (θ / ((n : ℝ) - 1) / 3) • arcTangent (unitAnchor (arcAnchorAngle a θ n (i + 1)))),
       scaleShiftPt r c (unitAnchor (arcAnchorAngle a θ n (i + 1)))) := by
  unfold arcQuadsPositioned arcQuads
  rw [List.map_map, List.getD_eq_getElem?_getD, List.getElem?_map, List.getElem?_range hi]
  rfl

/-- C5: for every arc with `n ≥ 2` components the generated path has
`n - 1` cubic segments, segment `i` runs from the exact circle point at
angle `a + i·θ/(n-1)` to the one at `a + (i+1)·θ/(n-1)` (uniform angular
sampling, scaled by the radius and shifted to the center), and in
particular the first anchor is `c + r·(cos a, sin a, 0)` and the last
anchor is `c + r·(cos(a+θ), sin(a+θ), 0)`. -/
theorem arc_path_anchor_endpoints (a θ r : ℝ) (c : Pt) (n : ℕ) (hn : 2 ≤ n) :
    (arcQuadsPositioned a θ n r c).length = n - 1 ∧
    (∀ i, i < n - 1 →
      ((arcQuadsPositioned a θ n r c).getD i default).1
          = c + r • unitAnchor (a + (i : ℝ) * θ / ((n : ℝ) - 1)) ∧
      ((arcQuadsPositioned a θ n r c).getD i default).2.2.2
          = c + r • unitAnchor (a + ((i : ℝ) + 1) * θ / ((n : ℝ) - 1))) ∧
    ((arcQuadsPositioned a θ n r c).getD 0 default).1 = c + r • unitAnchor a ∧
    ((arcQuadsPositioned a θ n r c).getD (n - 2) default).2.2.2
        = c + r • unitAnchor (a + θ) := by
  have hne : ((n : ℝ) - 1) ≠ 0 := by
    have : (2 : ℝ) ≤ (n : ℝ) := by exact_mod_cast hn
    nlinarith
  have hlen : (arcQuadsPositioned a θ n r c).length = n - 1 := by
    unfold arcQuadsPositioned arcQuads
    simp
  have hpt : ∀ i, i < n - 1 →
      ((arcQuadsPositioned a θ n r c).getD i default).1
          = c + r • unitAnchor (a + (i : ℝ) * θ / ((n : ℝ) - 1)) ∧
      ((arcQuadsPositioned a θ n r c).getD i default).2.2.2
          = c + r • unitAnchor (a + ((i : ℝ) + 1) * θ / ((n : ℝ) - 1)) := by
    intro i hi
    rw [arcQuadsPositioned_getD a θ r c n i hi]
    constructor
    · rfl
    · show scaleShiftPt r c (unitAnchor (arcAnchorAngle a θ n (i + 1))) = _
      unfold scaleShiftPt arcAnchorAngle
      push_cast
      ring_nf
  refine ⟨hlen, hpt, ?_, ?_⟩
  · have h0 := (hpt 0 (by omega)).1
    simpa using h0
  · have hlast := (hpt (n - 2) (by omega)).2
    rw [hlast]
    have hcast : ((n - 2 : ℕ) : ℝ) = (n : ℝ) - 2 := by
      have : (2 : ℕ) ≤ n := hn
      push_cast [this]
      ring
    rw [hcast]
    have harg : a + ((n : ℝ) - 2 + 1) * θ / ((n : ℝ) - 1) = a + θ := by
      field_simp
      ring
    rw [harg]

/-- Witness for `arc_path_anchor_endpoints`: the two-component arc of
radius 2 at the origin with start angle 0 and sweep 1. -/
theorem arc_path_anchor_endpoints_witness :
    (arcQuadsPositioned 0 1 2 2 ((0 : ℝ), (0 : ℝ), (0 : ℝ))).length = 2 - 1 ∧
    (∀ i, i < 2 - 1 →
      ((arcQuadsPositioned 0 1 2 2 ((0 : ℝ), (0 : ℝ), (0 : ℝ))).getD i default).1
          = ((0 : ℝ), (0 : ℝ), (0 : ℝ))
            + (2 : ℝ) • unitAnchor (0 + (i : ℝ) * 1 / ((2 : ℝ) - 1)) ∧
      ((arcQuadsPositioned 0 1 2 2 ((0 : ℝ), (0 : ℝ), (0 : ℝ))).getD i default).2.2.2
          = ((0 : ℝ), (0 : ℝ), (0 : ℝ))
            + (2 : ℝ) • unitAnchor (0 + ((i : ℝ) + 1) * 1 / ((2 : ℝ) - 1))) ∧
    ((arcQuadsPositioned 0 1 2 2 ((0 : ℝ), (0 : ℝ), (0 : ℝ))).getD 0 default).1
        = ((0 : ℝ), (0 : ℝ), (0 : ℝ)) + (2 : ℝ) • unitAnchor 0 ∧
    ((arcQuadsPositioned 0 1 2 2 ((0 : ℝ), (0 : ℝ), (0 : ℝ))).getD (2 - 2) default).2.2.2
        = ((0 : ℝ), (0 : ℝ), (0 : ℝ)) + (2 : ℝ) • unitAnchor (0 + 1) :=
  arc_path_anchor_endpoints 0 1 2 ((0 : ℝ), (0 : ℝ), (0 : ℝ)) 2 (by norm_num)

/-- Helper: the norm of the zero vector. -/
lemma norm3_zero : norm3 (0 : Pt) = 0 := by
  have h : ((0 : Pt)).1 ^ 2 + ((0 : Pt)).2.1 ^ 2 + ((0 : Pt)).2.2 ^ 2 = 0 := by
    norm_num
  unfold norm3
  rw [h]
  exact Real.sqrt_zero

/-- Helper: rotation about the OUT axis fixes the zero vector. -/
lemma rotZ_zero (d : ℝ) : rotZ d (0 : Pt) = (0 : Pt) := by
  simp [rotZ, Prod.ext_iff]

/-- Helper: `put_start_and_end_on(w, w)` on the straight `[LEFT, RIGHT]`
path scales by `|w - w| / |RIGHT - LEFT| = 0`, collapsing all four control
points onto `w` — a degenerate zero-length cubic segment. -/
lemma putStartEndOn_LR_collapse (w : Pt) :
    putStartEndOn (cornersPath [LEFTP, RIGHTP]) w w = some (List.replicate 4 w) := by
  have hpath : cornersPath [LEFTP, RIGHTP]
      = [LEFTP, LEFTP + (1 / 3 : ℝ) • (RIGHTP - LEFTP),
         LEFTP + (2 / 3 : ℝ) • (RIGHTP - LEFTP), RIGHTP] := rfl
  rw [hpath]
  have hne : ¬ (RIGHTP - LEFTP = ((0 : ℝ), (0 : ℝ), (0 : ℝ))) := by
    simp [RIGHTP, LEFTP, Prod.ext_iff]
  have hform : putStartEndOn
      [LEFTP, LEFTP + (1 / 3 : ℝ) • (RIGHTP - LEFTP),
       LEFTP + (2 / 3 : ℝ) • (RIGHTP - LEFTP), RIGHTP] w w
      = if RIGHTP - LEFTP = ((0 : ℝ), (0 : ℝ), (0 : ℝ)) then none
        else some ([LEFTP, LEFTP + (1 / 3 : ℝ) • (RIGHTP - LEFTP),
            LEFTP + (2 / 3 : ℝ) • (RIGHTP - LEFTP), RIGHTP].map
          (fun p => LEFTP + rotZ (angleOfVector (w - w) - angleOfVector (RIGHTP - LEFTP))
            ((norm3 (w - w) / norm3 (RIGHTP - LEFTP)) • (p - LEFTP)) + (w - LEFTP))) := rfl
  rw [hform, if_neg hne]
  have hx : ∀ x : Pt, LEFTP + rotZ (angleOfVector (w - w) - angleOfVector (RIGHTP - LEFTP))
      ((norm3 (w - w) / norm3 (RIGHTP - LEFTP)) • (x - LEFTP)) + (w - LEFTP) = w := by
    intro x
    rw [sub_self w, norm3_zero, zero_div, zero_smul, rotZ_zero, add_zero]
    abel
  simp only [List.map_cons, List.map_nil, hx]
  rfl

/-- Helper: at radius 0, `np.sign(0) = 0` zeroes the angle and the cut-off
length, so the corner arc is `ArcBetweenPoints(v2, v2, angle=0)`, whose
points collapse to four copies of the vertex. -/
lemma roundCornerArc_zero (v1 v2 v3 : Pt) :
    roundCornerArc v1 v2 v3 0 = some (List.replicate 4 v2) := by
  unfold roundCornerArc
  have hs0 : signR 0 = 0 := by
    unfold signR
    norm_num
  simp only [hs0, mul_zero, zero_mul, zero_smul, sub_zero, add_zero]
  unfold arcBetweenPointsPath
  rw [if_pos rfl]
  exact putStartEndOn_LR_collapse v2

/-- Helper: a collapsed cubic has arc length zero. -/
lemma pathArcLength_quad (q : Pt) : pathArcLength [q, q, q, q] = 0 := by
  unfold pathArcLength
  simp [sub_self, norm3_zero]

/-- C2 (code bug): at radius 0 every corner arc of `round_corners`
degenerates to a single zero-length cubic whose four control points all
equal the vertex, and on the default rectangle vertices the reassembly
loop then fails (`none`): the connector ratio divides by the degenerate
arc's zero arc length, so `round_corners(0)` is not an identity and does
produce degenerate zero-length segments, contrary to the claim. -/
theorem round_corners_zero_radius :
    (∀ v1 v2 v3 : Pt, roundCornerArc v1 v2 v3 0 = some (List.replicate 4 v2)) ∧
    roundCorners [cornerUL, cornerUR, cornerDR, cornerDL] 0 = none := by
  refine ⟨roundCornerArc_zero, ?_⟩
  have harcs : (adjacentTriplesCyc [cornerUL, cornerUR, cornerDR, cornerDL]).mapM
      (fun t => roundCornerArc t.1 t.2.1 t.2.2 0)
      = some [[cornerUR, cornerUR, cornerUR, cornerUR],
          [cornerDR, cornerDR, cornerDR, cornerDR],
          [cornerDL, cornerDL, cornerDL, cornerDL],
          [cornerUL, cornerUL, cornerUL, cornerUL]] := by
    rw [show (fun t : Pt × Pt × Pt => roundCornerArc t.1 t.2.1 t.2.2 0)
        = fun t => some (List.replicate 4 t.2.1) from
      funext fun t => roundCornerArc_zero t.1 t.2.1 t.2.2]
    rfl
  unfold roundCorners
  rw [harcs]
  simp [adjacentPairsCyc, List.foldlM, pathArcLength_quad]

/-- Helper: the explicit-radius check of `ArcBetweenPoints` raises exactly
when the radius magnitude is below half the chord length. -/
lemma deriveAngleABP_none_iff (s e : Pt) (r : ℝ) :
    deriveAngleABP s e r = none ↔ |r| < norm3 (s - e) / 2 := by
  have habs : (if r < 0 then -r else r) = |r| := by
    rcases lt_or_ge r 0 with h | h
    · rw [if_pos h, abs_of_neg h]
    · rw [if_neg (not_lt.mpr h), abs_of_nonneg h]
  simp only [deriveAngleABP, habs]
  split_ifs with h
  · simp [h]
  · simp [h]

/-- C1 amended: `ArcBetweenPoints(start, end, radius=r)` fails with the
invalid-radius `ValueError` — before any path points are produced — if and
only if `|r|` (the magnitude; the source flips a negative radius) is
smaller than half the distance between start and end; otherwise the
derived sweep angle is `sign · acos((|r| − arc_height)/|r|)` with
`arc_height = |r| − sqrt(|r|² − halfdist²)` and `sign = 2` for `r ≥ 0`,
`−2` for `r < 0`. -/
theorem abp_explicit_radius (s e : Pt) (r : ℝ) :
    ((arcBetweenPointsWithRadius s e r = Except.error ()) ↔ |r| < norm3 (s - e) / 2) ∧
    (¬ (|r| < norm3 (s - e) / 2) →
      deriveAngleABP s e r = some (Real.arccos
        ((|r| - (|r| - Real.sqrt (|r| ^ 2 - (norm3 (s - e) / 2) ^ 2))) / |r|)
        * (if r < 0 then (-2 : ℝ) else 2))) := by
  have habs : (if r < 0 then -r else r) = |r| := by
    rcases lt_or_ge r 0 with h | h
    · rw [if_pos h, abs_of_neg h]
    · rw [if_neg (not_lt.mpr h), abs_of_nonneg h]
  constructor
  · constructor
    · intro he
      cases h : deriveAngleABP s e r with
      | none => exact (deriveAngleABP_none_iff s e r).mp h
      | some θ => simp [arcBetweenPointsWithRadius, h] at he
    · intro hc
      have h := (deriveAngleABP_none_iff s e r).mpr hc
      simp [arcBetweenPointsWithRadius, h]
  · intro hcond
    simp only [deriveAngleABP, habs]
    rw [if_neg hcond]

/-- Witness for `abp_explicit_radius`: start `(0,0,0)`, end `(2,0,0)`,
radius 1 (exactly half the chord), where no error is raised. -/
theorem abp_explicit_radius_witness :
    ((arcBetweenPointsWithRadius ((0 : ℝ), (0 : ℝ), (0 : ℝ)) ((2 : ℝ), (0 : ℝ), (0 : ℝ)) 1
        = Except.error ())
      ↔ |(1 : ℝ)| < norm3 ((((0 : ℝ), (0 : ℝ), (0 : ℝ)) : Pt) - ((2 : ℝ), (0 : ℝ), (0 : ℝ))) / 2) ∧
    deriveAngleABP ((0 : ℝ), (0 : ℝ), (0 : ℝ)) ((2 : ℝ), (0 : ℝ), (0 : ℝ)) 1
      = some (Real.arccos
          ((|(1 : ℝ)| - (|(1 : ℝ)| - Real.sqrt (|(1 : ℝ)| ^ 2
            - (norm3 ((((0 : ℝ), (0 : ℝ), (0 : ℝ)) : Pt) - ((2 : ℝ), (0 : ℝ), (0 : ℝ))) / 2) ^ 2)))
            / |(1 : ℝ)|)
          * (if (1 : ℝ) < 0 then (-2 : ℝ) else 2)) := by
  have hn : norm3 ((((0 : ℝ), (0 : ℝ), (0 : ℝ)) : Pt) - ((2 : ℝ), (0 : ℝ), (0 : ℝ))) = 2 := by
    show Real.sqrt (((0 : ℝ) - 2) ^ 2 + ((0 : ℝ) - 0) ^ 2 + ((0 : ℝ) - 0) ^ 2) = 2
    rw [show ((0 : ℝ) - 2) ^ 2 + ((0 : ℝ) - 0) ^ 2 + ((0 : ℝ) - 0) ^ 2 = 2 ^ 2 by norm_num]
    exact Real.sqrt_sq (by norm_num)
  refine ⟨(abp_explicit_radius _ _ _).1, (abp_explicit_radius _ _ _).2 ?_⟩
  rw [hn]
  norm_num

/-- C1 counterexample: for radius `r = -1` between `(0,0,0)` and
`(1,0,0)` we have `r` smaller than half the chord distance (so the claim
predicts a fatal invalid-radius error), yet the construction does not
fail, because the source compares the magnitude `|r| = 1` against
`halfdist = 1/2`. -/
theorem abp_negative_radius_not_failing :
    arcBetweenPointsWithRadius ((0 : ℝ), (0 : ℝ), (0 : ℝ)) ((1 : ℝ), (0 : ℝ), (0 : ℝ)) (-1)
        ≠ Except.error () ∧
    (-1 : ℝ) < norm3 ((((0 : ℝ), (0 : ℝ), (0 : ℝ)) : Pt) - ((1 : ℝ), (0 : ℝ), (0 : ℝ))) / 2 := by
  have hn : norm3 ((((0 : ℝ), (0 : ℝ), (0 : ℝ)) : Pt) - ((1 : ℝ), (0 : ℝ), (0 : ℝ))) = 1 := by
    show Real.sqrt (((0 : ℝ) - 1) ^ 2 + ((0 : ℝ) - 0) ^ 2 + ((0 : ℝ) - 0) ^ 2) = 1
    rw [show ((0 : ℝ) - 1) ^ 2 + ((0 : ℝ) - 0) ^ 2 + ((0 : ℝ) - 0) ^ 2 = 1 ^ 2 by norm_num]
    exact Real.sqrt_sq (by norm_num)
  have hne : deriveAngleABP ((0 : ℝ), (0 : ℝ), (0 : ℝ)) ((1 : ℝ), (0 : ℝ), (0 : ℝ)) (-1)
      ≠ none := by
    rw [Ne, deriveAngleABP_none_iff, hn]
    norm_num
  constructor
  · cases h : deriveAngleABP ((0 : ℝ), (0 : ℝ), (0 : ℝ)) ((1 : ℝ), (0 : ℝ), (0 : ℝ)) (-1) with
    | none => exact absurd h hne
    | some θ =>
      unfold arcBetweenPointsWithRadius
      rw [h]
      simp
  · rw [hn]
    norm_num

/-- C8: when the normals to the first two tangents are parallel or
degenerate (zero determinant, so the lines have no unique intersection),
`get_arc_center` returns the origin, sets the failure flag and warns when
warnings are enabled; and the radius derived by `ArcBetweenPoints` without
an explicit radius is infinite exactly when the flag is set, otherwise the
distance from start to the recovered center. -/
theorem arc_center_degenerate (a1 h1 h2 a2 s : Pt) (w : Bool) :
    (∀ p q u v : Pt, lineIntersection2 p q u v = none ↔
      (p.1 - q.1) * (u.2.1 - v.2.1) - (u.1 - v.1) * (p.2.1 - q.2.1) = 0) ∧
    (lineIntersection2 a1 (a1 + rot90 (h1 - a1)) a2 (a2 + rot90 (h2 - a2)) = none →
      getArcCenter a1 h1 h2 a2 w = (((0 : ℝ), (0 : ℝ), (0 : ℝ)), true, w)) ∧
    (abpDerivedRadius s a1 h1 h2 a2 = RadiusVal.infinite
      ↔ (getArcCenter a1 h1 h2 a2 false).2.1 = true) ∧
    ((getArcCenter a1 h1 h2 a2 false).2.1 = false →
      abpDerivedRadius s a1 h1 h2 a2
        = RadiusVal.finite (norm3 (s - (getArcCenter a1 h1 h2 a2 false).1))) := by
  refine ⟨?_, ?_, ?_⟩
  · intro p q u v
    simp only [lineIntersection2]
    split_ifs with h
    · simp [h]
    · simp [h]
  · intro hli
    simp [getArcCenter, hli]
  · rcases hli : lineIntersection2 a1 (a1 + rot90 (h1 - a1)) a2 (a2 + rot90 (h2 - a2))
        with _ | cpt
    · constructor
      · simp [abpDerivedRadius, getArcCenter, hli]
      · intro hfl
        simp [getArcCenter, hli] at hfl
    · constructor
      · simp [abpDerivedRadius, getArcCenter, hli]
      · intro hfl
        simp [abpDerivedRadius, getArcCenter, hli]

/-- Witness for `arc_center_degenerate`: four coincident control points
(zero tangents), where the center falls back to the origin with the flag
set and the derived radius is infinite. -/
theorem arc_center_degenerate_witness :
    getArcCenter ((0 : ℝ), (0 : ℝ), (0 : ℝ)) ((0 : ℝ), (0 : ℝ), (0 : ℝ))
        ((0 : ℝ), (0 : ℝ), (0 : ℝ)) ((0 : ℝ), (0 : ℝ), (0 : ℝ)) true
      = (((0 : ℝ), (0 : ℝ), (0 : ℝ)), true, true) ∧
    abpDerivedRadius ((0 : ℝ), (0 : ℝ), (0 : ℝ)) ((0 : ℝ), (0 : ℝ), (0 : ℝ))
        ((0 : ℝ), (0 : ℝ), (0 : ℝ)) ((0 : ℝ), (0 : ℝ), (0 : ℝ)) ((0 : ℝ), (0 : ℝ), (0 : ℝ))
      = RadiusVal.infinite := by
  have hnone : lineIntersection2 (((0 : ℝ), (0 : ℝ), (0 : ℝ)) : Pt)
      ((((0 : ℝ), (0 : ℝ), (0 : ℝ)) : Pt)
        + rot90 ((((0 : ℝ), (0 : ℝ), (0 : ℝ)) : Pt) - ((0 : ℝ), (0 : ℝ), (0 : ℝ))))
      (((0 : ℝ), (0 : ℝ), (0 : ℝ)) : Pt)
      ((((0 : ℝ), (0 : ℝ), (0 : ℝ)) : Pt)
        + rot90 ((((0 : ℝ), (0 : ℝ), (0 : ℝ)) : Pt) - ((0 : ℝ), (0 : ℝ), (0 : ℝ)))) = none := by
    have hiff := (arc_center_degenerate ((0 : ℝ), (0 : ℝ), (0 : ℝ)) ((0 : ℝ), (0 : ℝ), (0 : ℝ))
      ((0 : ℝ), (0 : ℝ), (0 : ℝ)) ((0 : ℝ), (0 : ℝ), (0 : ℝ)) ((0 : ℝ), (0 : ℝ), (0 : ℝ)) true).1
    rw [hiff]
    norm_num [rot90]
  have hx := arc_center_degenerate ((0 : ℝ), (0 : ℝ), (0 : ℝ)) ((0 : ℝ), (0 : ℝ), (0 : ℝ))
      ((0 : ℝ), (0 : ℝ), (0 : ℝ)) ((0 : ℝ), (0 : ℝ), (0 : ℝ)) ((0 : ℝ), (0 : ℝ), (0 : ℝ)) true
  have hx0 := arc_center_degenerate ((0 : ℝ), (0 : ℝ), (0 : ℝ)) ((0 : ℝ), (0 : ℝ), (0 : ℝ))
      ((0 : ℝ), (0 : ℝ), (0 : ℝ)) ((0 : ℝ), (0 : ℝ), (0 : ℝ)) ((0 : ℝ), (0 : ℝ), (0 : ℝ)) false
  refine ⟨hx.2.1 hnone, hx.2.2.1.mpr ?_⟩
  rw [hx0.2.1 hnone]

/-- C9: on a path whose start-to-end distance is zero,
`reset_endpoints_based_on_tip` returns the points unchanged, and buffer
trimming on a zero-length line (any `buff ≥ 0`) leaves the path untrimmed
instead of producing degenerate geometry. -/
theorem zero_length_noop (p : List Pt) (b : Pt) (atStart : Bool) (buff : ℚ)
    (hlen : getLengthPath p = 0) (hbuff : 0 ≤ buff) :
    resetEndpointsBasedOnTip p b atStart = some p ∧ accountForBuff buff 0 = none := by
  constructor
  · unfold resetEndpointsBasedOnTip
    rw [if_pos hlen]
  · unfold accountForBuff
    by_cases hb : buff = 0
    · rw [if_pos hb]
    · rw [if_neg hb, if_pos ?_]
      have h0 : 0 < buff := lt_of_le_of_ne hbuff (Ne.symm hb)
      linarith

/-- Witness for `zero_length_noop`: a three-point path that starts and
ends at `(1,2,0)`, with `buff = 1`. -/
theorem zero_length_noop_witness :
    resetEndpointsBasedOnTip
        [((1 : ℝ), (2 : ℝ), (0 : ℝ)), ((3 : ℝ), (4 : ℝ), (0 : ℝ)), ((1 : ℝ), (2 : ℝ), (0 : ℝ))]
        ((0 : ℝ), (0 : ℝ), (0 : ℝ)) false
      = some [((1 : ℝ), (2 : ℝ), (0 : ℝ)), ((3 : ℝ), (4 : ℝ), (0 : ℝ)),
          ((1 : ℝ), (2 : ℝ), (0 : ℝ))] ∧
    accountForBuff 1 0 = none := by
  refine zero_length_noop
    [((1 : ℝ), (2 : ℝ), (0 : ℝ)), ((3 : ℝ), (4 : ℝ), (0 : ℝ)), ((1 : ℝ), (2 : ℝ), (0 : ℝ))]
    ((0 : ℝ), (0 : ℝ), (0 : ℝ)) false 1 ?_ (by norm_num)
  show norm3 ((((1 : ℝ), (2 : ℝ), (0 : ℝ)) : Pt) - ((1 : ℝ), (2 : ℝ), (0 : ℝ))) = 0
  show Real.sqrt (((1 : ℝ) - 1) ^ 2 + ((2 : ℝ) - 2) ^ 2 + ((0 : ℝ) - 0) ^ 2) = 0
  rw [show ((1 : ℝ) - 1) ^ 2 + ((2 : ℝ) - 2) ^ 2 + ((0 : ℝ) - 0) ^ 2 = 0 by norm_num]
  exact Real.sqrt_zero

/-- Helper: `edgesForVertex` creates exactly one edge per adjacency entry
whose target exceeds the vertex id. -/
lemma edgesForVertex_length (root : List (ℕ × VertexData)) (v : ℕ) (p : Vec) :
    ∀ (adj : List EdgeDef) (es : List (Vec × Vec)),
      edgesForVertex root v p adj = some es →
      es.length = ((adj.map edgeTarget).filter (fun t => v < t)).length := by
  intro adj
  induction adj with
  | nil =>
    intro es h
    simp [edgesForVertex] at h
    simp [← h]
  | cons d rest ih =>
    intro es h
    rw [edgesForVertex] at h
    by_cases hv : v < edgeTarget d
    · rw [if_pos hv] at h
      cases h1 : lookupPos root (edgeTarget d) with
      | none => rw [h1] at h; exact absurd h (by simp)
      | some q =>
        cases h2 : edgesForVertex root v p rest with
        | none => rw [h1, h2] at h; exact absurd h (by simp)
        | some es2 =>
          rw [h1, h2] at h
          simp only [Option.some.injEq] at h
          subst h
          simp [List.filter_cons, hv, ih es2 h2]
    · rw [if_neg hv] at h
      simp [List.filter_cons, hv, ih es h]

/-- Helper: shape counts produced by the `EdgeVertexGraph` loop. -/
lemma buildGraphAux_counts (root : List (ℕ × VertexData)) :
    ∀ (l : List (ℕ × VertexData)) (vs : List Vec) (es : List (Vec × Vec)),
      buildGraphAux root l = some (vs, es) →
      vs.length = l.length ∧
      es.length = (l.map (fun vd =>
        ((vd.2.adj.map edgeTarget).filter (fun t => vd.1 < t)).length)).sum := by
  intro l
  induction l with
  | nil =>
    intro vs es h
    simp [buildGraphAux] at h
    simp [← h.1, ← h.2]
  | cons a rest ih =>
    intro vs es h
    obtain ⟨v, d⟩ := a
    rw [buildGraphAux] at h
    cases h1 : edgesForVertex root v d.pos d.adj with
    | none => rw [h1] at h; exact absurd h (by simp)
    | some e1 =>
      cases h2 : buildGraphAux root rest with
      | none => rw [h1, h2] at h; exact absurd h (by simp)
      | some pr =>
        obtain ⟨vs2, es2⟩ := pr
        rw [h1, h2] at h
        simp only [Option.some.injEq, Prod.mk.injEq] at h
        obtain ⟨hv, he⟩ := h
        subst hv he
        obtain ⟨ih1, ih2⟩ := ih vs2 es2 h2
        constructor
        · simp [ih1]
        · simp [List.length_append, ih2, edgesForVertex_length root v d.pos d.adj e1 h1]

/-- C7: every successfully built graph has one vertex shape per dictionary
key and exactly one edge shape per adjacency entry `(u, v)` with `u < v`
(entries with `v ≤ u` are silently skipped); the three-vertex graph with
edges 0-1, 0-2, 1-2 declared once from lower to higher id yields exactly
3 vertex shapes and 3 edge shapes, never 6. -/
theorem build_graph_counts :
    (∀ (g : List (ℕ × VertexData)) (vs : List Vec) (es : List (Vec × Vec)),
      buildGraph g = some (vs, es) →
      vs.length = g.length ∧
      es.length = (g.map (fun vd =>
        ((vd.2.adj.map edgeTarget).filter (fun t => vd.1 < t)).length)).sum) ∧
    (buildGraph exampleGraph).map (fun r => (r.1.length, r.2.length)) = some (3, 3) := by
  refine ⟨fun g vs es h => buildGraphAux_counts g g vs es h, ?_⟩
  rfl

/-- Witness for `build_graph_counts` at the concrete three-vertex graph,
whose vertex and edge groups evaluate to explicit three-element lists. -/
theorem build_graph_counts_witness :
    ([((0 : ℚ), (0 : ℚ), (0 : ℚ)), (1, 0, 0), (0, 1, 0)] : List Vec).length
        = exampleGraph.length ∧
    ([(((0 : ℚ), (0 : ℚ), (0 : ℚ)), ((1 : ℚ), (0 : ℚ), (0 : ℚ))),
      ((0, 0, 0), (0, 1, 0)), ((1, 0, 0), (0, 1, 0))] : List (Vec × Vec)).length
        = (exampleGraph.map (fun vd =>
            ((vd.2.adj.map edgeTarget).filter (fun t => vd.1 < t)).length)).sum :=
  build_graph_counts.1 exampleGraph _ _ (by rfl)

/-- Helper: a single shift-only rule applies magnitude `p` at coordinate
`p`, for positive and negative `p` alike. -/
lemma magnitudeCode_single (q : ℤ) : magnitudeCode 1 0 q = q := by
  unfold magnitudeCode pyRangeLen
  simp only [neg_neg, neg_zero]
  split_ifs <;> omega

/-- Helper: `transform_tile` with the single rule `[[Mobject.shift, v]]`
translates the tile at coordinate `q` by exactly `q • v`. -/
lemma transformTileShift_single (v tile : Vec) (q : ℤ) :
    transformTileShift [[v]] q tile = tile + (q : ℚ) • v := by
  have h0 : transformTileShift [[v]] q tile =
      (if q < 0 then tile + ((magnitudeCode 1 0 q : ℤ) : ℚ) • v
       else tile + ((magnitudeCode 1 0 q : ℤ) : ℚ) • v) := rfl
  rw [h0, magnitudeCode_single]
  split_ifs <;> rfl

/-- Helper: `len(range(a, b, -k)) = len(range(-a, -b, k))`. -/
lemma pyRangeLen_neg_step (a b k : ℤ) (hk : 0 < k) :
    pyRangeLen a b (-k) = pyRangeLen (-a) (-b) k := by
  unfold pyRangeLen
  rw [if_neg (by omega : ¬ (0:ℤ) < -k), if_pos (by omega : (-k:ℤ) < 0), if_pos hk, neg_neg]
  by_cases hb : b < a
  · rw [if_pos hb, if_pos (by omega : (-a:ℤ) < -b)]
    have h3 : (-b : ℤ) - -a - 1 = a - b - 1 := by ring
    rw [h3]
  · rw [if_neg hb, if_neg (by omega : ¬ (-a:ℤ) < -b)]

/-- Helper: for a positive step, the Python range length counts the indices
`m ≥ 0` with `a + m·k < b`. -/
lemma pyRangeLen_pos_card (a b k : ℤ) (hk : 0 < k) (N : ℕ)
    (hN : ∀ m : ℕ, a + (m : ℤ) * k < b → m < N) :
    pyRangeLen a b k
      = (((Finset.range N).filter (fun (m : ℕ) => a + (m : ℤ) * k < b)).card : ℤ) := by
  unfold pyRangeLen
  rw [if_pos hk]
  by_cases hab : a < b
  · rw [if_pos hab]
    set M : ℤ := (b - a - 1) / k + 1 with hM
    have hd1 : 0 ≤ (b - a - 1) / k := Int.ediv_nonneg (by omega) hk.le
    have hcond : ∀ m : ℕ, (a + (m : ℤ) * k < b) ↔ ((m : ℤ) < M) := by
      intro m
      have h3 : ((m : ℤ) ≤ (b - a - 1) / k) ↔ (m : ℤ) * k ≤ b - a - 1 :=
        Int.le_ediv_iff_mul_le hk
      omega
    have hfe : (Finset.range N).filter (fun (m : ℕ) => a + (m : ℤ) * k < b)
        = Finset.range M.toNat := by
      ext m
      simp only [Finset.mem_filter, Finset.mem_range]
      constructor
      · intro hm
        have := (hcond m).mp hm.2
        omega
      · intro hm
        have hmM : (m : ℤ) < M := by omega
        exact ⟨hN m ((hcond m).mpr hmM), (hcond m).mpr hmM⟩
    rw [hfe, Finset.card_range]
    omega
  · rw [if_neg hab]
    symm
    have hfe : (Finset.range N).filter (fun (m : ℕ) => a + (m : ℤ) * k < b) = ∅ := by
      ext m
      simp only [Finset.mem_filter, Finset.mem_range, Finset.not_mem_empty, iff_false]
      intro hm
      have hmk : 0 ≤ (m : ℤ) * k := mul_nonneg (by omega) hk.le
      omega
    rw [hfe]
    simp

/-- C6 amended: a single shift-only rule translates the tile at coordinate
`q` by exactly `q·v` (positive and negative sides mirrored); in general,
for a rule list of length `k` and rule index `0 ≤ i < k`, the magnitude
applied at coordinate `p ≥ 0` is the count of integers `i + m·k` (`m ≥ 0`)
below `p` — including the zero multiple, so 0 itself is counted when
`i = 0` — and at `p < 0` it is minus the count of integers `−i − m·k`
(`m ≥ 0`) above `p` (applied with the mirrored rule index `k−1−i`). -/
theorem transform_tile_magnitudes (k i p : ℤ) (hk : 0 < k) (hi : 0 ≤ i) (hik : i < k) :
    (∀ (v tile : Vec) (q : ℤ), transformTileShift [[v]] q tile = tile + (q : ℚ) • v) ∧
    (0 ≤ p → magnitudeCode k i p =
      (((Finset.range p.toNat).filter (fun (m : ℕ) => i + (m : ℤ) * k < p)).card : ℤ)) ∧
    (p < 0 → magnitudeCode k i p =
      -((((Finset.range (-p).toNat).filter
          (fun (m : ℕ) => p < -i - (m : ℤ) * k)).card : ℤ))) := by
  have hik2 : i < k := hik
  refine ⟨fun v tile q => transformTileShift_single v tile q, fun hp => ?_, fun hp => ?_⟩
  · unfold magnitudeCode
    rw [if_neg (not_lt.mpr hp)]
    refine pyRangeLen_pos_card i p k hk p.toNat ?_
    intro m hm
    have h1 : (m : ℤ) * 1 ≤ (m : ℤ) * k := by
      apply mul_le_mul_of_nonneg_left (by omega) (by omega)
    omega
  · unfold magnitudeCode
    rw [if_pos hp, pyRangeLen_neg_step _ _ _ hk]
    have he : pyRangeLen (-(-i)) (-p) k
        = (((Finset.range (-p).toNat).filter
            (fun (m : ℕ) => i + (m : ℤ) * k < -p)).card : ℤ) := by
      rw [neg_neg]
      refine pyRangeLen_pos_card i (-p) k hk (-p).toNat ?_
      intro m hm
      have h1 : (m : ℤ) * 1 ≤ (m : ℤ) * k := by
        apply mul_le_mul_of_nonneg_left (by omega) (by omega)
      omega
    rw [he]
    have hfe : (Finset.range (-p).toNat).filter (fun (m : ℕ) => i + (m : ℤ) * k < -p)
        = (Finset.range (-p).toNat).filter (fun (m : ℕ) => p < -i - (m : ℤ) * k) := by
      apply Finset.filter_congr
      intro m _
      constructor <;> intro h <;> omega
    rw [hfe]
    ring

/-- Witness for `transform_tile_magnitudes` at `k = 2`, `i = 1`, `p = 5`. -/
theorem transform_tile_magnitudes_witness :
    (∀ (v tile : Vec) (q : ℤ), transformTileShift [[v]] q tile = tile + (q : ℚ) • v) ∧
    (0 ≤ (5 : ℤ) → magnitudeCode 2 1 5 =
      (((Finset.range (5 : ℤ).toNat).filter (fun (m : ℕ) => 1 + (m : ℤ) * 2 < 5)).card : ℤ)) ∧
    ((5 : ℤ) < 0 → magnitudeCode 2 1 5 =
      -((((Finset.range (-(5 : ℤ)).toNat).filter
          (fun (m : ℕ) => (5 : ℤ) < -1 - (m : ℤ) * 2)).card : ℤ))) :=
  transform_tile_magnitudes 2 1 5 (by decide) (by decide) (by decide)

/-- C6 counterexample: with a single shift rule (`k = 1`, rule index
`i = 0`) at coordinate `p = 1` the code applies magnitude 1 (the tile is
translated by the full shift vector), but the count of multiples of `k`
offset by `i` strictly between 0 and `p` is 0, so the claim's general
magnitude formula contradicts both the code and the claim's own
single-rule clause. -/
theorem transform_tile_strict_count_mismatch :
    transformTileShift [[((1 : ℚ), (0 : ℚ), (0 : ℚ))]] 1 0 = ((1 : ℚ), (0 : ℚ), (0 : ℚ)) ∧
    claimedMagnitude 1 0 1 = 0 := by
  constructor
  · rw [transformTileShift_single]
    simp [Prod.ext_iff]
  · decide

/-- C3 counterexample: with `buff = 1` and length `L = 2` we have
`2·buff ≥ L`, so the claim predicts that trimming is skipped, but
`account_for_buff` does trim (the skip test of the source is the strict
`length < 2 * buff`), producing the degenerate partial path from
proportion 1/2 to 1/2. -/
theorem account_for_buff_equality_trims :
    accountForBuff 1 2 = some (1 / 2, 1 / 2) ∧ (0 : ℚ) < 1 ∧ 2 * 1 ≥ (2 : ℚ) := by
  norm_num [accountForBuff]

/-- C3 amended: for every `buff > 0` and length `L`, trimming is skipped
exactly when `2·buff > L` (strictly); whenever `2·buff ≤ L` the path is
trimmed to the partial path from proportion `buff/L` to `1 − buff/L`. -/
theorem account_for_buff_trim_boundary (buff L : ℚ) (h : 0 < buff) :
    (accountForBuff buff L = none ↔ L < 2 * buff) ∧
    (2 * buff ≤ L → accountForBuff buff L = some (buff / L, 1 - buff / L)) := by
  have hb : ¬ buff = 0 := ne_of_gt h
  refine ⟨?_, fun hle => ?_⟩
  · unfold accountForBuff
    rw [if_neg hb]
    by_cases hl : L < 2 * buff
    · simp [hl]
    · simp [hl]
  · unfold accountForBuff
    rw [if_neg hb, if_neg (not_lt.mpr hle)]

/-- Witness for `account_for_buff_trim_boundary` at `buff = 1`, `L = 4`. -/
theorem account_for_buff_trim_boundary_witness :
    (accountForBuff 1 4 = none ↔ (4 : ℚ) < 2 * 1) ∧
    (2 * 1 ≤ (4 : ℚ) → accountForBuff 1 4 = some (1 / 4, 1 - 1 / 4)) :=
  account_for_buff_trim_boundary 1 4 (by norm_num)

/-- C4 counterexample: starting from a fresh path, `add_tip` with tip 1 and
then `add_tip` with tip 2 (both at the end) leaves the attribute pointing at
tip 2 but tip 1 is still a child of the path, so the path has two end tips
among its children and the previously attached tip was not removed. -/
theorem add_tip_readd_keeps_old_child :
    (addTip (addTip ⟨[], none, none⟩ 1 false) 2 false).tip = some 2 ∧
    1 ∈ (addTip (addTip ⟨[], none, none⟩ 1 false) 2 false).children ∧
    2 ∈ (addTip (addTip ⟨[], none, none⟩ 1 false) 2 false).children := by
  decide

/-- C4 amended: re-adding a tip at an end that already has one replaces only
the tip attribute (the attribute names the new tip), while the previously
attached tip remains a child of the path alongside the new one. -/
theorem add_tip_readd_replaces_attr (s : TipState) (t1 t2 : ℕ) (atStart : Bool)
    (hne : t1 ≠ t2) :
    (if atStart then (addTip (addTip s t1 atStart) t2 atStart).startTip = some t2
     else (addTip (addTip s t1 atStart) t2 atStart).tip = some t2) ∧
    t1 ∈ (addTip (addTip s t1 atStart) t2 atStart).children ∧
    t2 ∈ (addTip (addTip s t1 atStart) t2 atStart).children := by
  cases atStart <;>
    simp [addTip, addChild, asignTipAttr, List.mem_filter, hne]

/-- Witness for `add_tip_readd_replaces_attr` with tips 1 and 2 at the end
of a fresh path. -/
theorem add_tip_readd_replaces_attr_witness :
    (if false then (addTip (addTip ⟨[], none, none⟩ 1 false) 2 false).startTip = some 2
     else (addTip (addTip ⟨[], none, none⟩ 1 false) 2 false).tip = some 2) ∧
    1 ∈ (addTip (addTip ⟨[], none, none⟩ 1 false) 2 false).children ∧
    2 ∈ (addTip (addTip ⟨[], none, none⟩ 1 false) 2 false).children :=
  add_tip_readd_replaces_attr ⟨[], none, none⟩ 1 2 false (by decide)

/-- C10: after `add_tip` and then `pop_tips`, `has_tip()` and
`has_start_tip()` are false, yet `get_tips()` still contains the detached
tip and `get_tip()` returns it without raising; the "tip not found" raise
(`getTipOpt = none`) happens exactly when neither tip attribute was ever
assigned. -/
theorem pop_tips_then_getters (s : TipState) (t : ℕ) (hnd : s.children.Nodup) :
    hasTip ((popTips (addTip s t false)).1) = false ∧
    hasStartTip ((popTips (addTip s t false)).1) = false ∧
    getTipOpt ((popTips (addTip s t false)).1) = some t ∧
    t ∈ getTips ((popTips (addTip s t false)).1) ∧
    (∀ s2 : TipState, getTipOpt s2 = none ↔ s2.tip = none ∧ s2.startTip = none) := by
  have hgen : ∀ s2 : TipState, getTipOpt s2 = none ↔ s2.tip = none ∧ s2.startTip = none := by
    intro s2
    cases h1 : s2.tip <;> cases h2 : s2.startTip <;>
      simp [getTipOpt, getTips, h1, h2]
  have key : ∀ (l : List ℕ) (st : Option ℕ), t ∉ l → l.Nodup →
      hasTip ((popTips ⟨l ++ [t], some t, st⟩).1) = false ∧
      hasStartTip ((popTips ⟨l ++ [t], some t, st⟩).1) = false ∧
      getTipOpt ((popTips ⟨l ++ [t], some t, st⟩).1) = some t ∧
      t ∈ getTips ((popTips ⟨l ++ [t], some t, st⟩).1) := by
    intro l st htl hndl
    have herase : (l ++ [t]).erase t = l := by
      rw [List.erase_append_right _ htl]
      simp
    rcases st with _ | u
    · simp [popTips, hasTip, hasStartTip, removeChild, herase, htl, getTipOpt, getTips]
    · by_cases hu : u ∈ l
      · have h2 : t ∉ l.erase u := fun hmem => htl (List.mem_of_mem_erase hmem)
        have h3 : u ∉ l.erase u := fun hmem => by
          exact absurd (hndl.mem_erase_iff.mp hmem).1 (by simp)
        simp [popTips, hasTip, hasStartTip, removeChild, herase, htl, hu, h2, h3,
          getTipOpt, getTips]
      · simp [popTips, hasTip, hasStartTip, removeChild, herase, htl, hu,
          getTipOpt, getTips]
  have h1 : addTip s t false =
      ⟨s.children.filter (fun c => c ≠ t) ++ [t], some t, s.startTip⟩ := rfl
  rw [h1]
  have htc : t ∉ s.children.filter (fun c => c ≠ t) := by
    simp [List.mem_filter]
  exact ⟨(key _ _ htc (hnd.filter _)).1, (key _ _ htc (hnd.filter _)).2.1,
    (key _ _ htc (hnd.filter _)).2.2.1, (key _ _ htc (hnd.filter _)).2.2.2, hgen⟩

/-- Witness for `pop_tips_then_getters`: a fresh path and tip id 5. -/
theorem pop_tips_then_getters_witness :
    hasTip ((popTips (addTip ⟨[], none, none⟩ 5 false)).1) = false ∧
    hasStartTip ((popTips (addTip ⟨[], none, none⟩ 5 false)).1) = false ∧
    getTipOpt ((popTips (addTip ⟨[], none, none⟩ 5 false)).1) = some 5 ∧
    5 ∈ getTips ((popTips (addTip ⟨[], none, none⟩ 5 false)).1) ∧
    (∀ s2 : TipState, getTipOpt s2 = none ↔ s2.tip = none ∧ s2.startTip = none) :=
  pop_tips_then_getters ⟨[], none, none⟩ 5 (by decide)

end ManimGeo
